import Mathlib

/-!
Verification of the MeetingManager application (src/meeting_manager_app.py).

The Python program is embedded shallowly:

* strings are Lean `String`s (Python `str` is a sequence of code points, as is
  `String.data`; the BINARY collation of SQLite compares UTF-8 bytes, whose order
  agrees with code-point order);
* the four module-level regular expressions (`DATE_RE_CN_FULL`,
  `DATE_RE_STD_FULL`, `DATE_RE_CN_PREFIX`, `DATE_RE_STD_PREFIX`) are embedded
  as first-order parsers over `List Char`; the patterns are anchored, their
  separators (`年`, `月`, `日`, `-`) are never digits, so the greedy
  backtracking of `\d{1,2}` is forced and a deterministic parser is faithful;
* the SQLite table `meetings` is a list of rows plus the next AUTOINCREMENT
  id; the UNIQUE(title, date) constraint, LIKE predicates (case-insensitive on
  ASCII, as in the SQLite default) and ORDER BY are modelled explicitly;
* fallible Python functions returning `Optional[str]` become `Option String`;
  `Tuple[bool, Optional[str]]` becomes `Bool × Option String`.
-/

set_option maxRecDepth 4000

/-- Whitespace characters stripped by Python `str.strip()` (the ASCII
whitespace set together with the ideographic space; no input in this
development contains any other Unicode whitespace). -/
def isPySpace (c : Char) : Bool :=
  c = ' ' || c = '\t' || c = '\n' || c = '\r' || c = '\x0b' || c = '\x0c' || c = '　'

/-- Python `str.strip()`. -/
def pyStrip (s : String) : String :=
  ⟨((s.data.dropWhile isPySpace).reverse.dropWhile isPySpace).reverse⟩

/-- Numeric value of a decimal digit character. -/
def digVal (c : Char) : Nat := c.toNat - 48

/-- Parse exactly four decimal digits (`\d{4}` at the start of the string),
returning their value and the remaining characters. -/
def parseY4 : List Char → Option (Nat × List Char)
  | a :: b :: c :: d :: rest =>
    if a.isDigit && b.isDigit && c.isDigit && d.isDigit then
      some (((digVal a * 10 + digVal b) * 10 + digVal c) * 10 + digVal d, rest)
    else none
  | _ => none

/-- Parse `\d{1,2}` immediately followed by the literal character `sep`
(greedy, with the backtracking of the Python regex engine: two digits are
taken when the third character is `sep`, otherwise one digit followed by
`sep`).  Returns the numeric value and the characters after `sep`. -/
def parseD12Sep (sep : Char) : List Char → Option (Nat × List Char)
  | a :: b :: c :: rest =>
    if a.isDigit && b.isDigit && c = sep then some (digVal a * 10 + digVal b, rest)
    else if a.isDigit && b = sep then some (digVal a, c :: rest)
    else none
  | [a, b] => if a.isDigit && b = sep then some (digVal a, []) else none
  | _ => none

/-- Parse a trailing `\d{1,2}` with nothing required after it (greedy: two
digits are taken whenever two are available). -/
def parseD12End : List Char → Option (Nat × List Char)
  | a :: b :: rest =>
    if a.isDigit && b.isDigit then some (digVal a * 10 + digVal b, rest)
    else if a.isDigit then some (digVal a, b :: rest)
    else none
  | [a] => if a.isDigit then some (digVal a, []) else none
  | [] => none

/-- Embedding of `DATE_RE_CN_PREFIX` = `^\s*(\d{4})年(\d{1,2})月(\d{1,2})日` applied to an
already-stripped string: year, month, day values and the characters after
`日`. -/
def matchCNPrefix (cs : List Char) : Option (Nat × Nat × Nat × List Char) :=
  match parseY4 cs with
  | some (y, c :: cs1) =>
    if c = '年' then
      match parseD12Sep '月' cs1 with
      | some (m, cs2) =>
        match parseD12Sep '日' cs2 with
        | some (d, rest) => some (y, m, d, rest)
        | none => none
      | none => none
    else none
  | _ => none

/-- Embedding of `DATE_RE_STD_PREFIX` = `^\s*(\d{4})-(\d{1,2})-(\d{1,2})` applied to an
already-stripped string. -/
def matchSTDPrefix (cs : List Char) : Option (Nat × Nat × Nat × List Char) :=
  match parseY4 cs with
  | some (y, c :: cs1) =>
    if c = '-' then
      match parseD12Sep '-' cs1 with
      | some (m, cs2) =>
        match parseD12End cs2 with
        | some (d, rest) => some (y, m, d, rest)
        | none => none
      | none => none
    else none
  | _ => none

/-- Embedding of `DATE_RE_CN_FULL` = `^\s*(\d{4})年(\d{1,2})月(\d{1,2})日\s*$` on an
already-stripped string: since the input has no trailing whitespace, the
full match is the prefix match with an empty remainder (the separators are
not digits, so regex backtracking cannot rescue a failed greedy choice). -/
def matchCNFull (cs : List Char) : Option (Nat × Nat × Nat) :=
  match matchCNPrefix cs with
  | some (y, m, d, []) => some (y, m, d)
  | _ => none

/-- Embedding of `DATE_RE_STD_FULL` = `^\s*(\d{4})-(\d{1,2})-(\d{1,2})\s*$` on an
already-stripped string.  If the greedy two-digit day leaves a nonempty
remainder, the one-digit alternative leaves a remainder starting with a
digit, also nonempty, so requiring an empty remainder after the greedy
parse is faithful. -/
def matchSTDFull (cs : List Char) : Option (Nat × Nat × Nat) :=
  match matchSTDPrefix cs with
  | some (y, m, d, []) => some (y, m, d)
  | _ => none

/-- The rendering `f"{y}年{mm}月{d}日"` followed, when the stripped suffix is
nonempty, by a single space and that suffix (the result construction used by
`normalize_datetime`). -/
def renderCN (y m d : Nat) (suffix : String) : String :=
  let dp := toString y ++ "年" ++ toString m ++ "月" ++ toString d ++ "日"
  if suffix = "" then dp else dp ++ " " ++ suffix

/-- Embedding of `normalize_datetime` from the source: strip, try the Chinese prefix
pattern then the standard prefix pattern, re-render the date in Chinese form
and keep the stripped remainder as a suffix after one space; `None` when
neither pattern matches.  (The `try/except ValueError` in the source wraps
pure f-string formatting and can never fire.) -/
def normalize_datetime (date_str : String) : Option String :=
  let s := pyStrip date_str
  match matchCNPrefix s.data with
  | some (y, m, d, rest) => some (renderCN y m d (pyStrip ⟨rest⟩))
  | none =>
    match matchSTDPrefix s.data with
    | some (y, m, d, rest) => some (renderCN y m d (pyStrip ⟨rest⟩))
    | none => none

/-- Embedding of `f"{n:02d}"` for the month/day fields (both are at most two digits). -/
def pad2 (n : Nat) : String := if n < 10 then "0" ++ toString n else toString n

/-- Gregorian leap year, as used by the Python `datetime` type. -/
def isLeap (y : Nat) : Bool := y % 4 == 0 && (y % 100 != 0 || y % 400 == 0)

/-- Days in a month, as validated by the Python `datetime` constructor. -/
def daysInMonth (y m : Nat) : Nat :=
  if m = 2 then (if isLeap y then 29 else 28)
  else if m = 4 ∨ m = 6 ∨ m = 9 ∨ m = 11 then 30
  else 31

/-- Embedding of `datetime(y, m, d).strftime("%Y-%m-%d")`: raises `ValueError` (here:
`none`) unless `1 ≤ y ≤ 9999`, `1 ≤ m ≤ 12`, `1 ≤ d ≤ daysInMonth y m`;
otherwise the zero-padded ISO rendering (the year is four digits for every
input reachable here, since it was parsed from `\d{4}`). -/
def mkDateISO (y m d : Nat) : Option String :=
  if 1 ≤ y ∧ y ≤ 9999 ∧ 1 ≤ m ∧ m ≤ 12 ∧ 1 ≤ d ∧ d ≤ daysInMonth y m then
    some (toString y ++ "-" ++ pad2 m ++ "-" ++ pad2 d)
  else none

/-- Embedding of `normalize_date_prefix` from the source: strip, require a full-string
match of either date pattern, build the calendar-validated ISO form. -/
def normalize_date_prefix (date_in : String) : Option String :=
  let s := pyStrip date_in
  match matchCNFull s.data with
  | some (y, m, d) => mkDateISO y m d
  | none =>
    match matchSTDFull s.data with
    | some (y, m, d) => mkDateISO y m d
    | none => none

/-- One row of the `meetings` table
(`id, title, date, location, attendees, topic, content, raw_text`). -/
structure Meeting where
  id : Nat
  title : String
  date : String
  location : String
  attendees : String
  topic : String
  content : String
  raw_text : String
deriving DecidableEq, Repr

/-- The SQLite store: current rows in insertion order together with the next
AUTOINCREMENT id. -/
structure DBState where
  rows : List Meeting
  nextId : Nat
deriving DecidableEq, Repr

/-- The fields of a record dictionary handed to `insert_meeting`
(everything but the id, which the store assigns). -/
structure RecordFields where
  title : String
  date : String
  location : String
  attendees : String
  topic : String
  content : String
  raw_text : String
deriving DecidableEq, Repr

/-- The duplicate message returned by `DBManager.insert_meeting` on an
`IntegrityError` (the importer recognises it by the substring 重复记录). -/
def dupMsg : String := "重复记录（同“会议名称 + 会议时间”）已跳过。"

/-- Embedding of `DBManager.insert_meeting`: the parameterized INSERT either violates
UNIQUE(title, date) — SQLite raises `IntegrityError`, the transaction does
not change the table, and the duplicate message is returned — or appends a
row with the next AUTOINCREMENT id. -/
def insert_meeting (st : DBState) (rec : RecordFields) : DBState × (Bool × Option String) :=
  if st.rows.any (fun r => r.title == rec.title && r.date == rec.date) then
    (st, (false, some dupMsg))
  else
    ({ rows := st.rows ++
        [⟨st.nextId, rec.title, rec.date, rec.location, rec.attendees,
          rec.topic, rec.content, rec.raw_text⟩],
       nextId := st.nextId + 1 },
     (true, none))

/-- Embedding of `DBManager.delete_meeting`: `DELETE FROM meetings WHERE id=?` always
succeeds, whether or not a row with that id exists (the `except` branch is
unreachable for a healthy store). -/
def delete_meeting (st : DBState) (rid : Nat) : DBState × (Bool × Option String) :=
  ({ rows := st.rows.filter (fun r => r.id ≠ rid), nextId := st.nextId }, (true, none))

/-- Embedding of `DBManager.get_id_by_title_date`. -/
def get_id_by_title_date (st : DBState) (title date : String) : Option Nat :=
  (st.rows.find? (fun r => r.title == title && r.date == date)).map Meeting.id

/-- The default LIKE of SQLite is case-insensitive on the 26 ASCII letters. -/
def asciiLower (s : String) : String :=
  ⟨s.data.map (fun c => if 'A' ≤ c && c ≤ 'Z' then Char.ofNat (c.toNat + 32) else c)⟩

/-- Contiguous-sublist test over characters. -/
def listContainsSub (needle : List Char) : List Char → Bool
  | [] => needle.isPrefixOf []
  | c :: rest => needle.isPrefixOf (c :: rest) || listContainsSub needle rest

/-- Embedding of `field LIKE %kw%` (percent-wrapped) for a keyword containing no LIKE metacharacters
(none of the keywords in this development contains `%` or `_`). -/
def sqlLikeSub (kw field : String) : Bool :=
  listContainsSub (asciiLower kw).data (asciiLower field).data

/-- Embedding of `field LIKE p%` (trailing percent) — the date-prefix filter. -/
def sqlLikePrefix (p field : String) : Bool :=
  (asciiLower p).data.isPrefixOf (asciiLower field).data

/-- The WHERE clause built by `segmented_search_exact_six`: one substring
predicate per non-blank keyword, except the date keyword, which contributes
a `date LIKE prefix%` clause only when `normalize_date_prefix` accepts it
and is silently dropped otherwise. -/
def rowMatches (title_kw date_kw location_kw attendees_kw topic_kw content_kw : String)
    (r : Meeting) : Bool :=
  (pyStrip title_kw = "" || sqlLikeSub (pyStrip title_kw) r.title) &&
  (pyStrip location_kw = "" || sqlLikeSub (pyStrip location_kw) r.location) &&
  (pyStrip attendees_kw = "" || sqlLikeSub (pyStrip attendees_kw) r.attendees) &&
  (pyStrip topic_kw = "" || sqlLikeSub (pyStrip topic_kw) r.topic) &&
  (pyStrip content_kw = "" || sqlLikeSub (pyStrip content_kw) r.content) &&
  (pyStrip date_kw = "" ||
    match normalize_date_prefix (pyStrip date_kw) with
    | some p => sqlLikePrefix p r.date
    | none => true)

/-- Embedding of `ORDER BY date DESC, id DESC` under the BINARY collation of SQLite: `a` may
precede `b` when the date string of `a` is greater (code-point order, which is
UTF-8 byte order), or the dates are equal and the id of `a` is not smaller. -/
def resLe (a b : Meeting) : Prop :=
  b.date < a.date ∨ (b.date = a.date ∧ b.id ≤ a.id)

instance : DecidableRel resLe := fun a b =>
  decidable_of_iff (b.date.toList < a.date.toList ∨ (b.date = a.date ∧ b.id ≤ a.id))
    (by rw [← String.lt_iff_toList_lt]; exact Iff.rfl)

instance : IsTotal Meeting resLe where
  total a b := by
    rcases lt_trichotomy a.date b.date with h | h | h
    · exact Or.inr (Or.inl h)
    · rcases Nat.le_total b.id a.id with h2 | h2
      · exact Or.inl (Or.inr ⟨h.symm, h2⟩)
      · exact Or.inr (Or.inr ⟨h, h2⟩)
    · exact Or.inl (Or.inl h)

instance : IsTrans Meeting resLe where
  trans a b c hab hbc := by
    rcases hab with h1 | ⟨h1, h1'⟩ <;> rcases hbc with h2 | ⟨h2, h2'⟩
    · exact Or.inl (lt_trans h2 h1)
    · exact Or.inl (h2 ▸ h1)
    · exact Or.inl (h1 ▸ h2)
    · exact Or.inr ⟨h2.trans h1, h2'.trans h1'⟩

/-- Embedding of `DBManager.segmented_search_exact_six`: filter the table by the
conjunction of clauses, then sort by `date DESC, id DESC` (row ids are
unique, so the key order is antisymmetric on any reachable store and
insertion sort returns the unique sorted arrangement SQLite would). -/
def segmented_search_exact_six
    (st : DBState)
    (title_kw date_kw location_kw attendees_kw topic_kw content_kw : String) :
    List Meeting :=
  List.insertionSort resLe
    (st.rows.filter
      (rowMatches title_kw date_kw location_kw attendees_kw topic_kw content_kw))

/-- One paragraph of the input document, as the splitter sees it: its text
(before stripping) and whether any of its runs carries a manual page-break
marker (`w:br` of type `page`; the docx object model is out of scope, so the
flag is taken as given). -/
structure Para where
  text : String
  hasPageBreak : Bool
deriving DecidableEq, Repr

/-- The paragraph loop of `split_docx_by_page`: `cur` is `current_lines`.
The stripped text of the paragraph, when nonempty, is appended to the current
group; a page break then flushes the current group, but only when it is
nonempty; the last open group is flushed at the end, again only when
nonempty. -/
def splitGo : List Para → List String → List (List String)
  | [], cur => if cur.isEmpty then [] else [cur]
  | p :: rest, cur =>
    let text := pyStrip p.text
    let cur1 := if text = "" then cur else cur ++ [text]
    if p.hasPageBreak then
      (if cur1.isEmpty then splitGo rest [] else cur1 :: splitGo rest [])
    else splitGo rest cur1

/-- Embedding of `split_docx_by_page` from the source, over the paragraph
list. -/
def split_docx_by_page (paras : List Para) : List (List String) :=
  splitGo paras []

/-- The nonempty stripped paragraph texts of a document, in order. -/
def nonEmptyTexts (paras : List Para) : List String :=
  paras.filterMap (fun p => if pyStrip p.text = "" then none else some (pyStrip p.text))

/-- Embedding of `"\n".join(...)`. -/
def joinNL (ls : List String) : String := String.intercalate "\n" ls

/-- Embedding of `ln.split("：", 1)`: split at the first full-width colon, when there is
one. -/
def splitOnce (sep : Char) : List Char → Option (List Char × List Char)
  | [] => none
  | c :: rest =>
    if c = sep then some ([], rest)
    else (splitOnce sep rest).map (fun p => (c :: p.1, p.2))

/-- Embedding of `safe_extract` from `parse_docx_to_records`: the stripped text after the
first full-width colon, or `""` when the line has no such colon. -/
def safe_extract (ln : String) : String :=
  match splitOnce '：' ln.data with
  | some p => pyStrip ⟨p.2⟩
  | none => ""

/-- The mutable locals of the extraction loop in `parse_docx_to_records`. -/
structure ExtractState where
  date_str : String
  location : String
  attendees : String
  topic : String
  content_lines : List String
  content_started : Bool
deriving DecidableEq, Repr

/-- The initial extraction state. -/
def initExtract : ExtractState := ⟨"", "", "", "", [], false⟩

/-- Python `ln.startswith(p)`. -/
def strStartsWith (p ln : String) : Bool := p.data.isPrefixOf ln.data

/-- One iteration of the `for ln in lines[1:]` loop: classify the line by
fixed label prefix; lines after the content marker that match no label are
appended to the content body. -/
def stepLine (st : ExtractState) (ln : String) : ExtractState :=
  if strStartsWith "会议时间" ln then { st with date_str := safe_extract ln }
  else if strStartsWith "会议地点" ln then { st with location := safe_extract ln }
  else if strStartsWith "参会人员" ln then { st with attendees := safe_extract ln }
  else if strStartsWith "会议议题" ln then { st with topic := safe_extract ln }
  else if strStartsWith "会议内容" ln then { st with content_started := true }
  else if st.content_started then { st with content_lines := st.content_lines ++ [ln] }
  else st

/-- Outcome of parsing one line-group: a record, or an error message with
the raw text of the group. -/
inductive ParseOutcome where
  | ok (rec : RecordFields)
  | error (msg : String) (raw : String)
deriving DecidableEq, Repr

/-- The per-group body of `parse_docx_to_records`: empty-group check, first
line as title, label extraction loop, missing-required-field check, then the
date-format check, and finally the record assembly. -/
def parse_group (lines : List String) : ParseOutcome :=
  let raw := joinNL lines
  match lines with
  | [] => .error "文档为空" raw
  | title :: rest =>
    let st := rest.foldl stepLine initExtract
    if st.date_str = "" ∨ st.location = "" ∨ st.attendees = "" then
      .error "缺少必要字段（会议时间/地点/人员）" raw
    else
      match normalize_datetime st.date_str with
      | none => .error "会议时间格式不正确" raw
      | some d =>
        .ok ⟨title, d, st.location, st.attendees, st.topic,
             pyStrip (joinNL st.content_lines), raw⟩

/-- Embedding of `parse_docx_to_records` on a readable document: split into line-groups,
parse each (the unreadable-document branch is outside the embedding). -/
def parse_docx_to_records (paras : List Para) : List ParseOutcome :=
  (split_docx_by_page paras).map parse_group


/-! Concrete data used by individual claims. -/

/-- The import example from the specification: one line-group with all five
labels present. -/
def c1Group : List String :=
  ["周例会", "会议时间：2024年3月5日", "会议地点：三楼会议室",
   "参会人员：张三、李四", "会议议题：预算", "会议内容：", "讨论预算方案"]

/-- The record the extractor produces for `c1Group`. -/
def c1Rec : RecordFields :=
  ⟨"周例会", "2024年3月5日", "三楼会议室", "张三、李四", "预算", "讨论预算方案",
   "周例会\n会议时间：2024年3月5日\n会议地点：三楼会议室\n参会人员：张三、李四\n会议议题：预算\n会议内容：\n讨论预算方案"⟩

/-- A store populated by importing `c1Rec` into an empty table. -/
def c1Store : DBState := (insert_meeting ⟨[], 1⟩ c1Rec).1

/-- A line-group in which a label line (会议议题) appears after the
content-section marker. -/
def c3Group : List String :=
  ["周会", "会议时间：2024年3月5日", "会议地点：三楼", "参会人员：张三",
   "会议内容：", "第一行", "会议议题：预算"]

/-- The record the extractor produces for `c3Group`: the trailing label line
lands in the topic field, not in the content body. -/
def c3Rec : RecordFields :=
  ⟨"周会", "2024年3月5日", "三楼", "张三", "预算", "第一行",
   "周会\n会议时间：2024年3月5日\n会议地点：三楼\n参会人员：张三\n会议内容：\n第一行\n会议议题：预算"⟩

/-- A row whose meeting day, 2024-03-01, is chronologically earlier than
that of `c4r2` but whose stored date string is lexicographically larger. -/
def c4r1 : Meeting := ⟨1, "三月会", "2024年3月1日", "一楼", "张三", "", "记录", "r1"⟩

/-- A row whose meeting day is 2024-10-01. -/
def c4r2 : Meeting := ⟨2, "十月会", "2024年10月1日", "一楼", "张三", "", "记录", "r2"⟩

/-- A store holding the two rows of the C4 counterexample. -/
def c4Store : DBState := ⟨[c4r1, c4r2], 3⟩

/-- A store already holding a record titled 周例会 dated 2024年3月5日. -/
def c5Store : DBState := ⟨[⟨1, "周例会", "2024年3月5日", "三楼", "张三", "预算", "记录", "raw"⟩], 2⟩

/-- A second record with the same (title, date) pair as the row of
`c5Store` but different other fields. -/
def c5Rec : RecordFields := ⟨"周例会", "2024年3月5日", "五楼", "李四", "总结", "纪要", "raw2"⟩

/-- A one-row store used to exercise deletion of an absent id. -/
def c8Store : DBState := ⟨[⟨1, "周例会", "2024年3月5日", "三楼", "张三", "", "记录", "raw"⟩], 2⟩

/-! Specification-side shape predicates for the date prefixes (used to state
the C2 contract without referring to the parser itself). -/

/-- A character list shaped `\d{4}年\d{1,2}月\d{1,2}日<rest>`. -/
def cnDecompAt (y1 y2 y3 y4 : Char) (mcs dcs rest : List Char) : List Char :=
  y1 :: y2 :: y3 :: y4 :: '年' :: (mcs ++ '月' :: (dcs ++ '日' :: rest))

/-- A character list shaped `\d{4}-\d{1,2}-\d{1,2}<rest>`. -/
def stdDecompAt (y1 y2 y3 y4 : Char) (mcs dcs rest : List Char) : List Char :=
  y1 :: y2 :: y3 :: y4 :: '-' :: (mcs ++ '-' :: (dcs ++ rest))

/-- One or two decimal digit characters. -/
def d12 (cs : List Char) : Prop :=
  (cs.length = 1 ∨ cs.length = 2) ∧ ∀ c ∈ cs, c.isDigit = true

/-- Head of the list, if any, is not a decimal digit. -/
def noLeadDigit : List Char → Prop
  | [] => True
  | c :: _ => c.isDigit = false

/-- Decimal value of a digit list (most significant first). -/
def val12 (cs : List Char) : Nat := cs.foldl (fun a c => a * 10 + digVal c) 0

/-- The string has a well-formed Chinese date prefix. -/
def isCNShaped (cs : List Char) : Prop :=
  ∃ y1 y2 y3 y4 mcs dcs rest,
    cs = cnDecompAt y1 y2 y3 y4 mcs dcs rest ∧
    y1.isDigit = true ∧ y2.isDigit = true ∧ y3.isDigit = true ∧ y4.isDigit = true ∧
    d12 mcs ∧ d12 dcs

/-- The string has a well-formed hyphenated date prefix, with the day taken
greedily (a one-digit day is not followed by another digit). -/
def isSTDShaped (cs : List Char) : Prop :=
  ∃ y1 y2 y3 y4 mcs dcs rest,
    cs = stdDecompAt y1 y2 y3 y4 mcs dcs rest ∧
    y1.isDigit = true ∧ y2.isDigit = true ∧ y3.isDigit = true ∧ y4.isDigit = true ∧
    d12 mcs ∧ d12 dcs ∧ (dcs.length = 2 ∨ noLeadDigit rest)

/-! Helper lemmas. -/

/-- On a document region without page breaks, the splitter loop appends all
nonempty stripped texts to the open group and flushes it at the end (or
nothing, when the group would be empty). -/
theorem splitGo_noBreak (ps : List Para) (cur : List String)
    (h : ∀ p ∈ ps, p.hasPageBreak = false) :
    splitGo ps cur =
      if (cur ++ nonEmptyTexts ps).isEmpty then [] else [cur ++ nonEmptyTexts ps] := by
  induction ps generalizing cur with
  | nil => simp [splitGo, nonEmptyTexts]
  | cons p rest ih =>
    have hp : p.hasPageBreak = false := h p (by simp)
    have hrest : ∀ q ∈ rest, q.hasPageBreak = false := fun q hq => h q (by simp [hq])
    by_cases ht : pyStrip p.text = ""
    · simp [splitGo, hp, ht, ih _ hrest, nonEmptyTexts]
    · simp [splitGo, hp, ht, ih _ hrest, nonEmptyTexts]

/-- Every group the splitter loop emits is nonempty. -/
theorem splitGo_groups_ne_nil (ps : List Para) :
    ∀ (cur : List String) (g : List String), g ∈ splitGo ps cur → g ≠ [] := by
  induction ps with
  | nil =>
    intro cur g hg
    by_cases hc : cur.isEmpty
    · simp [splitGo, hc] at hg
    · simp [splitGo, hc] at hg
      subst hg
      intro hnil
      rw [hnil] at hc
      exact hc rfl
  | cons p rest ih =>
    intro cur g hg
    simp only [splitGo] at hg
    by_cases hb : p.hasPageBreak
    · rw [if_pos hb] at hg
      by_cases hc : (if pyStrip p.text = "" then cur else cur ++ [pyStrip p.text]).isEmpty
      · rw [if_pos hc] at hg
        exact ih [] g hg
      · rw [if_neg hc] at hg
        rcases List.mem_cons.mp hg with rfl | hg'
        · intro hnil
          rw [hnil] at hc
          exact hc rfl
        · exact ih [] g hg'
    · rw [if_neg hb] at hg
      exact ih _ g hg

/-- A nonempty line-group can never produce the empty-document error. -/
theorem parse_group_cons_ne_empty_doc (t : String) (rest : List String) (raw : String) :
    parse_group (t :: rest) ≠ .error "文档为空" raw := by
  simp only [parse_group]
  split
  · intro h
    injection h with h1 _
    exact absurd h1 (by decide)
  · split
    · intro h
      injection h with h1 _
      exact absurd h1 (by decide)
    · intro h
      exact ParseOutcome.noConfusion h

/-! Claim theorems. -/

/-- C1 (code bug): a store populated through the importer holds dates in the
Chinese form produced by `normalize_datetime` (here 2024年3月5日), while the
search-time date predicate is the ISO prefix produced by
`normalize_date_prefix` (here 2024-03-05).  The predicate therefore matches
no imported record: searching with the exact date keyword of the sole stored
record returns the empty list instead of that record.  The second half of
the claim does hold: the incomplete keyword 2024年3月 is dropped from the
predicate and the search returns everything. -/
theorem C1_date_search_misses_imported_records :
    parse_group c1Group = .ok c1Rec
    ∧ (insert_meeting ⟨[], 1⟩ c1Rec).2 = (true, none)
    ∧ c1Store.rows.map Meeting.date = ["2024年3月5日"]
    ∧ normalize_date_prefix "2024年3月5日" = some "2024-03-05"
    ∧ segmented_search_exact_six c1Store "" "2024年3月5日" "" "" "" "" = []
    ∧ segmented_search_exact_six c1Store "" "2024年3月" "" "" "" "" = c1Store.rows := by
  refine ⟨by decide, by decide, by decide, by decide, by decide, by decide⟩

/-- C10: the prefix-tolerant normalizer performs no calendar validation (it
accepts 2024年13月99日 verbatim), while the strict search-time variant
rejects lexically well-formed but calendar-invalid dates (2024-02-30 and
2024年13月99日) yet accepts valid ones — so the two functions disagree on
which date values they accept. -/
theorem C10_normalizers_disagree :
    normalize_datetime "2024年13月99日" = some "2024年13月99日"
    ∧ normalize_date_prefix "2024年13月99日" = none
    ∧ normalize_datetime "2024-02-30" = some "2024年2月30日"
    ∧ normalize_date_prefix "2024-02-30" = none
    ∧ normalize_date_prefix "2024-03-05" = some "2024-03-05" := by
  refine ⟨by decide, by decide, by decide, by decide, by decide⟩

/-- C3 (counterexample): in `c3Group` the line 会议议题：预算 comes after the
content marker, yet it is not appended to the content body — it is consumed
by the topic branch, so the content is just 第一行 (the claim would require
content 第一行, newline, 会议议题：预算). -/
theorem C3_label_after_marker_not_appended :
    parse_group c3Group = .ok c3Rec
    ∧ c3Rec.topic = "预算"
    ∧ c3Rec.content = "第一行"
    ∧ c3Rec.content ≠ "第一行\n会议议题：预算" := by
  refine ⟨by decide, by decide, by decide, by decide⟩

/-- C3 (amended): once the content marker has been seen, a subsequent line
is appended verbatim to the content body only when it starts with none of
the five field labels; label lines are still handled by their own
branches. -/
theorem C3_nonlabel_after_marker_appended (st : ExtractState) (ln : String)
    (hstart : st.content_started = true)
    (h1 : strStartsWith "会议时间" ln = false)
    (h2 : strStartsWith "会议地点" ln = false)
    (h3 : strStartsWith "参会人员" ln = false)
    (h4 : strStartsWith "会议议题" ln = false)
    (h5 : strStartsWith "会议内容" ln = false) :
    stepLine st ln = { st with content_lines := st.content_lines ++ [ln] } := by
  simp [stepLine, h1, h2, h3, h4, h5, hstart]

/-- Witness for the amended C3 statement at a concrete state and line. -/
theorem C3_nonlabel_after_marker_appended_witness :
    stepLine ⟨"2024年3月5日", "三楼", "张三", "", ["第一行"], true⟩ "第二行" =
      ⟨"2024年3月5日", "三楼", "张三", "", ["第一行", "第二行"], true⟩ := by
  rw [C3_nonlabel_after_marker_appended _ _ rfl (by decide) (by decide) (by decide)
      (by decide) (by decide)]
  decide

/-- C4 (counterexample): with the Chinese unpadded storage format the SQL
`ORDER BY date DESC` is a code-point comparison, not a chronological one:
the row dated 2024年3月1日 (day 2024-03-01) sorts before the row dated
2024年10月1日 (day 2024-10-01), although the latter is the more recent
meeting date. -/
theorem C4_not_chronological :
    segmented_search_exact_six c4Store "" "" "" "" "" "" = [c4r1, c4r2]
    ∧ normalize_date_prefix c4r1.date = some "2024-03-01"
    ∧ normalize_date_prefix c4r2.date = some "2024-10-01"
    ∧ ("2024-03-01" : String) < "2024-10-01" := by
  refine ⟨by decide, by decide, by decide, String.lt_iff_toList_lt.mpr (by decide)⟩

/-- C4 (amended): every search result list is sorted by the stored date
string descending under code-point (UTF-8 byte) order, ties broken by id —
that is, insertion order — descending.  This coincides with chronological
order only when the stored date strings are lexicographically monotone in
the date, which the Chinese unpadded form is not. -/
theorem C4_sorted_by_date_string_desc (st : DBState)
    (tkw dkw lkw akw pkw ckw : String) :
    List.Sorted resLe (segmented_search_exact_six st tkw dkw lkw akw pkw ckw) :=
  List.sorted_insertionSort resLe _

/-- C5: inserting a record whose (title, date) pair already occurs in the
store reports the duplicate condition — the message carries the marker
重复记录 the importer dispatches on, distinguishing it from the generic
插入失败 failure — and leaves the store (rows and next id) unchanged. -/
theorem C5_duplicate_insert_rejected (st : DBState) (rec : RecordFields)
    (h : ∃ r ∈ st.rows, r.title = rec.title ∧ r.date = rec.date) :
    insert_meeting st rec = (st, (false, some dupMsg))
    ∧ listContainsSub "重复记录".data dupMsg.data = true
    ∧ listContainsSub "插入失败".data dupMsg.data = false := by
  have hb : st.rows.any (fun r => r.title == rec.title && r.date == rec.date) = true := by
    rcases h with ⟨r, hr, h1, h2⟩
    simp only [List.any_eq_true, Bool.and_eq_true, beq_iff_eq]
    exact ⟨r, hr, h1, h2⟩
  refine ⟨by simp [insert_meeting, hb], by decide, by decide⟩

/-- Witness for C5 at a concrete store and duplicate record. -/
theorem C5_duplicate_insert_rejected_witness :
    insert_meeting c5Store c5Rec = (c5Store, (false, some dupMsg))
    ∧ listContainsSub "重复记录".data dupMsg.data = true
    ∧ listContainsSub "插入失败".data dupMsg.data = false :=
  C5_duplicate_insert_rejected c5Store c5Rec (by decide)

/-- C6: whenever extraction over a nonempty line-group leaves the date,
location or attendees value empty, the extractor fails with the
missing-required-field error carrying the joined input lines as raw text —
with no assumption on the date value, so this check precedes the
date-format check. -/
theorem C6_missing_required_field (title : String) (rest : List String)
    (h : (rest.foldl stepLine initExtract).date_str = ""
       ∨ (rest.foldl stepLine initExtract).location = ""
       ∨ (rest.foldl stepLine initExtract).attendees = "") :
    parse_group (title :: rest) =
      .error "缺少必要字段（会议时间/地点/人员）" (joinNL (title :: rest)) := by
  simp only [parse_group]
  rw [if_pos h]

/-- Witness for C6: a group missing the 会议地点 line (and with a date value
that would also fail the format check, showing the precedence). -/
theorem C6_missing_required_field_witness :
    parse_group ["周例会", "会议时间：2024年3月", "参会人员：张三"] =
      .error "缺少必要字段（会议时间/地点/人员）"
        (joinNL ["周例会", "会议时间：2024年3月", "参会人员：张三"]) :=
  C6_missing_required_field "周例会" ["会议时间：2024年3月", "参会人员：张三"] (by decide)

/-- C7 (counterexample): a document with zero page breaks but no nonempty
paragraph text yields zero line-groups, not exactly one. -/
theorem C7_blank_document_yields_no_group :
    split_docx_by_page [⟨" ", false⟩] = []
    ∧ ([Para.mk " " false].all fun p => !p.hasPageBreak) = true := by
  refine ⟨by decide, by decide⟩

/-- C7 (amended): a document with zero manual page breaks and at least one
nonempty paragraph text yields exactly one line-group, holding all the
nonempty stripped paragraph texts in document order. -/
theorem C7_no_break_single_group (paras : List Para)
    (hnb : ∀ p ∈ paras, p.hasPageBreak = false)
    (hne : nonEmptyTexts paras ≠ []) :
    split_docx_by_page paras = [nonEmptyTexts paras] := by
  rw [split_docx_by_page, splitGo_noBreak paras [] hnb]
  rw [List.nil_append, if_neg]
  intro hcontr
  exact hne (List.isEmpty_iff.mp hcontr)

/-- Witness for the amended C7 statement on a three-paragraph document. -/
theorem C7_no_break_single_group_witness :
    split_docx_by_page [⟨"第一行", false⟩, ⟨"  ", false⟩, ⟨"第二行", false⟩] =
      [["第一行", "第二行"]] := by
  rw [C7_no_break_single_group _ (by decide) (by decide)]
  decide

/-- C8: deleting by an identity that no stored row carries succeeds — it
returns the same success value `(true, none)` as any delete — and leaves
the store unchanged. -/
theorem C8_delete_absent_id_succeeds (st : DBState) (rid : Nat)
    (h : ∀ r ∈ st.rows, r.id ≠ rid) :
    delete_meeting st rid = (st, (true, none)) := by
  have hf : st.rows.filter (fun r => r.id ≠ rid) = st.rows := by
    rw [List.filter_eq_self]
    intro r hr
    exact decide_eq_true (h r hr)
  unfold delete_meeting
  rw [hf]

/-- Witness for C8: deleting id 99 from a store whose only row has id 1. -/
theorem C8_delete_absent_id_succeeds_witness :
    delete_meeting c8Store 99 = (c8Store, (true, none)) :=
  C8_delete_absent_id_succeeds c8Store 99 (by decide)

/-- C9: every line-group emitted by the document splitter is nonempty, so
the empty-document error branch of the extractor can never fire on a group
the splitter produced (an all-blank document yields zero groups, never an
empty one). -/
theorem C9_split_groups_nonempty (paras : List Para) (g : List String)
    (h : g ∈ split_docx_by_page paras) :
    g ≠ [] ∧ parse_group g ≠ .error "文档为空" (joinNL g) := by
  have hne : g ≠ [] := splitGo_groups_ne_nil paras [] g h
  refine ⟨hne, ?_⟩
  cases g with
  | nil => exact absurd rfl hne
  | cons t rest => exact parse_group_cons_ne_empty_doc t rest _

/-- Witness for C9 on a two-group document. -/
theorem C9_split_groups_nonempty_witness :
    (["第一行"] : List String) ≠ []
    ∧ parse_group ["第一行"] ≠ .error "文档为空" (joinNL ["第一行"]) :=
  C9_split_groups_nonempty [⟨"第一行", true⟩, ⟨"第二行", false⟩] ["第一行"] (by decide)

/-- Four digit characters parse to their decimal value, leaving the tail. -/
theorem parseY4_complete (y1 y2 y3 y4 : Char) (cs : List Char)
    (h1 : y1.isDigit = true) (h2 : y2.isDigit = true)
    (h3 : y3.isDigit = true) (h4 : y4.isDigit = true) :
    parseY4 (y1 :: y2 :: y3 :: y4 :: cs) = some (val12 [y1, y2, y3, y4], cs) := by
  simp [parseY4, h1, h2, h3, h4, val12]

/-- One or two digit characters followed by a non-digit separator parse to
their decimal value, consuming the separator. -/
theorem parseD12Sep_complete (sep : Char) (hsep : sep.isDigit = false)
    (mcs cs : List Char) (hm : d12 mcs) :
    parseD12Sep sep (mcs ++ sep :: cs) = some (val12 mcs, cs) := by
  obtain ⟨hlen, hdig⟩ := hm
  match mcs with
  | [] => simp at hlen
  | [a] =>
    have ha : a.isDigit = true := hdig a (by simp)
    match cs with
    | [] => simp [parseD12Sep, ha, val12]
    | c :: cs2 => simp [parseD12Sep, ha, hsep, val12]
  | [a, b] =>
    have ha : a.isDigit = true := hdig a (by simp)
    have hb : b.isDigit = true := hdig b (by simp)
    simp [parseD12Sep, ha, hb, val12]
  | a :: b :: c :: mcs2 => simp at hlen

/-- One or two digit characters parse greedily at the end of the number:
either two digits are present, or the remainder does not begin with a
digit. -/
theorem parseD12End_complete (dcs rest : List Char) (hd : d12 dcs)
    (hmax : dcs.length = 2 ∨ noLeadDigit rest) :
    parseD12End (dcs ++ rest) = some (val12 dcs, rest) := by
  obtain ⟨hlen, hdig⟩ := hd
  match dcs with
  | [] => simp at hlen
  | [a] =>
    have ha : a.isDigit = true := hdig a (by simp)
    have hnl : noLeadDigit rest := by
      rcases hmax with h | h
      · simp at h
      · exact h
    match rest with
    | [] => simp [parseD12End, ha, val12]
    | c :: cs2 =>
      have hc : c.isDigit = false := hnl
      simp [parseD12End, ha, hc, val12]
  | [a, b] =>
    have ha : a.isDigit = true := hdig a (by simp)
    have hb : b.isDigit = true := hdig b (by simp)
    simp [parseD12End, ha, hb, val12]
  | a :: b :: c :: dcs2 => simp at hlen

/-- The Chinese prefix matcher succeeds on every well-shaped Chinese
prefix, producing the decimal values and the tail after 日. -/
theorem matchCNPrefix_complete (y1 y2 y3 y4 : Char) (mcs dcs rest : List Char)
    (h1 : y1.isDigit = true) (h2 : y2.isDigit = true)
    (h3 : y3.isDigit = true) (h4 : y4.isDigit = true)
    (hm : d12 mcs) (hd : d12 dcs) :
    matchCNPrefix (cnDecompAt y1 y2 y3 y4 mcs dcs rest) =
      some (val12 [y1, y2, y3, y4], val12 mcs, val12 dcs, rest) := by
  simp [matchCNPrefix, cnDecompAt,
        parseY4_complete y1 y2 y3 y4 _ h1 h2 h3 h4,
        parseD12Sep_complete '月' (by decide) mcs _ hm,
        parseD12Sep_complete '日' (by decide) dcs rest hd]

/-- The hyphenated prefix matcher succeeds on every well-shaped hyphenated
prefix with a greedily-taken day. -/
theorem matchSTDPrefix_complete (y1 y2 y3 y4 : Char) (mcs dcs rest : List Char)
    (h1 : y1.isDigit = true) (h2 : y2.isDigit = true)
    (h3 : y3.isDigit = true) (h4 : y4.isDigit = true)
    (hm : d12 mcs) (hd : d12 dcs) (hmax : dcs.length = 2 ∨ noLeadDigit rest) :
    matchSTDPrefix (stdDecompAt y1 y2 y3 y4 mcs dcs rest) =
      some (val12 [y1, y2, y3, y4], val12 mcs, val12 dcs, rest) := by
  simp [matchSTDPrefix, stdDecompAt,
        parseY4_complete y1 y2 y3 y4 _ h1 h2 h3 h4,
        parseD12Sep_complete '-' (by decide) mcs _ hm,
        parseD12End_complete dcs rest hd hmax]

/-- The Chinese matcher fails on a hyphen-shaped string: the fifth
character is a hyphen, not 年. -/
theorem matchCNPrefix_on_std (y1 y2 y3 y4 : Char) (mcs dcs rest : List Char)
    (h1 : y1.isDigit = true) (h2 : y2.isDigit = true)
    (h3 : y3.isDigit = true) (h4 : y4.isDigit = true) :
    matchCNPrefix (stdDecompAt y1 y2 y3 y4 mcs dcs rest) = none := by
  simp [matchCNPrefix, stdDecompAt, parseY4_complete y1 y2 y3 y4 _ h1 h2 h3 h4]

/-- Soundness of the four-digit parser: success exposes four digit
characters followed by the returned tail. -/
theorem parseY4_sound (cs : List Char) (y : Nat) (rest : List Char)
    (h : parseY4 cs = some (y, rest)) :
    ∃ y1 y2 y3 y4, cs = y1 :: y2 :: y3 :: y4 :: rest
      ∧ y1.isDigit = true ∧ y2.isDigit = true ∧ y3.isDigit = true ∧ y4.isDigit = true
      ∧ y = val12 [y1, y2, y3, y4] := by
  match cs with
  | [] => simp [parseY4] at h
  | [a] => simp [parseY4] at h
  | [a, b] => simp [parseY4] at h
  | [a, b, c] => simp [parseY4] at h
  | a :: b :: c :: d :: cs2 =>
    rw [parseY4] at h
    by_cases hd : (a.isDigit && b.isDigit && c.isDigit && d.isDigit) = true
    · rw [if_pos hd] at h
      simp only [Option.some.injEq, Prod.mk.injEq] at h
      obtain ⟨hy, hrest⟩ := h
      rw [Bool.and_eq_true, Bool.and_eq_true, Bool.and_eq_true] at hd
      obtain ⟨⟨⟨ha, hb⟩, hc⟩, hdd⟩ := hd
      exact ⟨a, b, c, d, by rw [hrest], ha, hb, hc, hdd, by simp [val12, ← hy]⟩
    · rw [if_neg hd] at h
      simp at h

/-- Soundness of the digit-then-separator parser. -/
theorem parseD12Sep_sound (sep : Char) (cs : List Char) (v : Nat) (rest : List Char)
    (h : parseD12Sep sep cs = some (v, rest)) :
    ∃ mcs, cs = mcs ++ sep :: rest ∧ d12 mcs ∧ v = val12 mcs := by
  match cs with
  | [] => simp [parseD12Sep] at h
  | [a] => simp [parseD12Sep] at h
  | [a, b] =>
    rw [parseD12Sep] at h
    by_cases hc : (a.isDigit && b = sep) = true
    · rw [if_pos hc] at h
      simp only [Option.some.injEq, Prod.mk.injEq] at h
      obtain ⟨hv, hrest⟩ := h
      obtain ⟨ha, hb⟩ := Bool.and_eq_true .. ▸ hc
      refine ⟨[a], ?_, ⟨Or.inl rfl, ?_⟩, ?_⟩
      · simp [← hrest, decide_eq_true_eq.mp hb]
      · intro c hcm; rw [List.mem_singleton.mp hcm]; exact ha
      · simp [val12, ← hv]
    · rw [if_neg hc] at h
      simp at h
  | a :: b :: c :: cs2 =>
    rw [parseD12Sep] at h
    by_cases h2 : (a.isDigit && b.isDigit && c = sep) = true
    · rw [if_pos h2] at h
      simp only [Option.some.injEq, Prod.mk.injEq] at h
      obtain ⟨hv, hrest⟩ := h
      obtain ⟨hab, hcs⟩ := Bool.and_eq_true .. ▸ h2
      obtain ⟨ha, hb⟩ := Bool.and_eq_true .. ▸ hab
      refine ⟨[a, b], ?_, ⟨Or.inr rfl, ?_⟩, ?_⟩
      · simp [← hrest, decide_eq_true_eq.mp hcs]
      · intro x hx
        rcases List.mem_cons.mp hx with rfl | hx'
        · exact ha
        · rw [List.mem_singleton.mp hx']; exact hb
      · simp [val12, ← hv]
    · rw [if_neg h2] at h
      by_cases h1 : (a.isDigit && b = sep) = true
      · rw [if_pos h1] at h
        simp only [Option.some.injEq, Prod.mk.injEq] at h
        obtain ⟨hv, hrest⟩ := h
        obtain ⟨ha, hb⟩ := Bool.and_eq_true .. ▸ h1
        refine ⟨[a], ?_, ⟨Or.inl rfl, ?_⟩, ?_⟩
        · simp [← hrest, decide_eq_true_eq.mp hb]
        · intro x hx; rw [List.mem_singleton.mp hx]; exact ha
        · simp [val12, ← hv]
      · rw [if_neg h1] at h
        simp at h

/-- Soundness of the trailing digit parser: the digits are taken greedily,
so a one-digit parse leaves a tail that does not start with a digit. -/
theorem parseD12End_sound (cs : List Char) (v : Nat) (rest : List Char)
    (h : parseD12End cs = some (v, rest)) :
    ∃ dcs, cs = dcs ++ rest ∧ d12 dcs ∧ (dcs.length = 2 ∨ noLeadDigit rest)
      ∧ v = val12 dcs := by
  match cs with
  | [] => simp [parseD12End] at h
  | [a] =>
    rw [parseD12End] at h
    by_cases ha : a.isDigit = true
    · rw [if_pos ha] at h
      simp only [Option.some.injEq, Prod.mk.injEq] at h
      obtain ⟨hv, hrest⟩ := h
      refine ⟨[a], by simp [← hrest], ⟨Or.inl rfl, ?_⟩, Or.inr ?_, by simp [val12, ← hv]⟩
      · intro x hx; rw [List.mem_singleton.mp hx]; exact ha
      · rw [← hrest]; trivial
    · rw [if_neg ha] at h
      simp at h
  | a :: b :: cs2 =>
    rw [parseD12End] at h
    by_cases h2 : (a.isDigit && b.isDigit) = true
    · rw [if_pos h2] at h
      simp only [Option.some.injEq, Prod.mk.injEq] at h
      obtain ⟨hv, hrest⟩ := h
      obtain ⟨ha, hb⟩ := Bool.and_eq_true .. ▸ h2
      refine ⟨[a, b], by simp [← hrest], ⟨Or.inr rfl, ?_⟩, Or.inl rfl, by simp [val12, ← hv]⟩
      intro x hx
      rcases List.mem_cons.mp hx with rfl | hx'
      · exact ha
      · rw [List.mem_singleton.mp hx']; exact hb
    · rw [if_neg h2] at h
      by_cases ha : a.isDigit = true
      · rw [if_pos ha] at h
        simp only [Option.some.injEq, Prod.mk.injEq] at h
        obtain ⟨hv, hrest⟩ := h
        have hb : b.isDigit = false := by
          revert h2; rw [ha]; cases b.isDigit <;> simp
        refine ⟨[a], by simp [← hrest], ⟨Or.inl rfl, ?_⟩, Or.inr ?_, by simp [val12, ← hv]⟩
        · intro x hx; rw [List.mem_singleton.mp hx]; exact ha
        · rw [← hrest]; exact hb
      · rw [if_neg ha] at h
        simp at h

/-- A successful Chinese prefix match exposes a well-shaped Chinese
prefix. -/
theorem matchCNPrefix_sound (cs : List Char) (y m d : Nat) (rest : List Char)
    (h : matchCNPrefix cs = some (y, m, d, rest)) : isCNShaped cs := by
  unfold matchCNPrefix at h
  cases hy : parseY4 cs with
  | none => rw [hy] at h; simp at h
  | some val =>
    obtain ⟨yv, cs1⟩ := val
    rw [hy] at h
    match cs1 with
    | [] => simp at h
    | c :: cs1' =>
      dsimp only at h
      by_cases hc : c = '年'
      · subst hc
        rw [if_pos rfl] at h
        cases hm : parseD12Sep '月' cs1' with
        | none => rw [hm] at h; simp at h
        | some vm =>
          obtain ⟨mv, cs2⟩ := vm
          rw [hm] at h
          dsimp only at h
          cases hdm : parseD12Sep '日' cs2 with
          | none => rw [hdm] at h; simp at h
          | some vd =>
            obtain ⟨dv, cs3⟩ := vd
            rw [hdm] at h
            simp only [Option.some.injEq, Prod.mk.injEq] at h
            obtain ⟨_, _, _, hrest⟩ := h
            obtain ⟨y1, y2, y3, y4, hcs, h1, h2, h3, h4, _⟩ :=
              parseY4_sound cs yv ('年' :: cs1') hy
            obtain ⟨mcs, hcs1, hm12, _⟩ := parseD12Sep_sound '月' cs1' mv cs2 hm
            obtain ⟨dcs, hcs2, hd12, _⟩ := parseD12Sep_sound '日' cs2 dv cs3 hdm
            refine ⟨y1, y2, y3, y4, mcs, dcs, rest, ?_, h1, h2, h3, h4, hm12, hd12⟩
            rw [hcs, hcs1, hcs2, hrest]
            simp [cnDecompAt]
      · rw [if_neg hc] at h
        simp at h

/-- A successful hyphenated prefix match exposes a well-shaped hyphenated
prefix with a greedily-taken day. -/
theorem matchSTDPrefix_sound (cs : List Char) (y m d : Nat) (rest : List Char)
    (h : matchSTDPrefix cs = some (y, m, d, rest)) : isSTDShaped cs := by
  unfold matchSTDPrefix at h
  cases hy : parseY4 cs with
  | none => rw [hy] at h; simp at h
  | some val =>
    obtain ⟨yv, cs1⟩ := val
    rw [hy] at h
    match cs1 with
    | [] => simp at h
    | c :: cs1' =>
      dsimp only at h
      by_cases hc : c = '-'
      · subst hc
        rw [if_pos rfl] at h
        cases hm : parseD12Sep '-' cs1' with
        | none => rw [hm] at h; simp at h
        | some vm =>
          obtain ⟨mv, cs2⟩ := vm
          rw [hm] at h
          dsimp only at h
          cases hdm : parseD12End cs2 with
          | none => rw [hdm] at h; simp at h
          | some vd =>
            obtain ⟨dv, cs3⟩ := vd
            rw [hdm] at h
            simp only [Option.some.injEq, Prod.mk.injEq] at h
            obtain ⟨_, _, _, hrest⟩ := h
            obtain ⟨y1, y2, y3, y4, hcs, h1, h2, h3, h4, _⟩ :=
              parseY4_sound cs yv ('-' :: cs1') hy
            obtain ⟨mcs, hcs1, hm12, _⟩ := parseD12Sep_sound '-' cs1' mv cs2 hm
            obtain ⟨dcs, hcs2, hd12, hmax, _⟩ := parseD12End_sound cs2 dv cs3 hdm
            refine ⟨y1, y2, y3, y4, mcs, dcs, rest, ?_, h1, h2, h3, h4, hm12, hd12, ?_⟩
            · rw [hcs, hcs1, hcs2, hrest]
              simp [stdDecompAt]
            · rw [← hrest]; exact hmax
      · rw [if_neg hc] at h
        simp at h

/-- A Chinese-shaped character list has at least nine characters. -/
theorem isCNShaped_length (cs : List Char) (h : isCNShaped cs) : 9 ≤ cs.length := by
  obtain ⟨y1, y2, y3, y4, mcs, dcs, rest, heq, _, _, _, _, hm, hd⟩ := h
  subst heq
  have hm1 : 1 ≤ mcs.length := by rcases hm.1 with h1 | h1 <;> omega
  have hd1 : 1 ≤ dcs.length := by rcases hd.1 with h1 | h1 <;> omega
  simp [cnDecompAt]
  omega

/-- A hyphen-shaped character list has at least eight characters. -/
theorem isSTDShaped_length (cs : List Char) (h : isSTDShaped cs) : 8 ≤ cs.length := by
  obtain ⟨y1, y2, y3, y4, mcs, dcs, rest, heq, _, _, _, _, hm, hd, _⟩ := h
  subst heq
  have hm1 : 1 ≤ mcs.length := by rcases hm.1 with h1 | h1 <;> omega
  have hd1 : 1 ≤ dcs.length := by rcases hd.1 with h1 | h1 <;> omega
  simp [stdDecompAt]
  omega

/-- C2 (counterexample): the text following the matched prefix is not
preserved verbatim — its surrounding whitespace is stripped before the
single separating space is inserted.  For the input 2024年3月5日 followed by
two spaces and 上午, the result has a single space, not the verbatim
two-space suffix. -/
theorem C2_suffix_not_verbatim :
    normalize_datetime "2024年3月5日  上午" = some "2024年3月5日 上午"
    ∧ "2024年3月5日 上午" ≠ "2024年3月5日" ++ " " ++ "  上午" := by
  refine ⟨by decide, by decide⟩

/-- C2 (amended): for every input whose stripped form begins with a
well-formed Chinese (`\d{4}年\d{1,2}月\d{1,2}日`) or hyphenated
(`\d{4}-\d{1,2}-\d{1,2}`, day taken greedily) date prefix, the normalizer
returns the Chinese rendering of the parsed numbers followed — when the
text after the prefix is not all whitespace — by a single space and that
text with surrounding whitespace stripped; for every input with neither
prefix shape it returns `none`. -/
theorem C2_normalize_datetime_contract (s : String) :
    (∀ (y1 y2 y3 y4 : Char) (mcs dcs rest : List Char),
        (pyStrip s).data = cnDecompAt y1 y2 y3 y4 mcs dcs rest →
        y1.isDigit = true → y2.isDigit = true → y3.isDigit = true → y4.isDigit = true →
        d12 mcs → d12 dcs →
        normalize_datetime s =
          some (renderCN (val12 [y1, y2, y3, y4]) (val12 mcs) (val12 dcs) (pyStrip ⟨rest⟩)))
    ∧ (∀ (y1 y2 y3 y4 : Char) (mcs dcs rest : List Char),
        (pyStrip s).data = stdDecompAt y1 y2 y3 y4 mcs dcs rest →
        y1.isDigit = true → y2.isDigit = true → y3.isDigit = true → y4.isDigit = true →
        d12 mcs → d12 dcs → (dcs.length = 2 ∨ noLeadDigit rest) →
        normalize_datetime s =
          some (renderCN (val12 [y1, y2, y3, y4]) (val12 mcs) (val12 dcs) (pyStrip ⟨rest⟩)))
    ∧ (¬ isCNShaped (pyStrip s).data → ¬ isSTDShaped (pyStrip s).data →
        normalize_datetime s = none) := by
  refine ⟨?_, ?_, ?_⟩
  · intro y1 y2 y3 y4 mcs dcs rest heq h1 h2 h3 h4 hm hd
    have hcn := matchCNPrefix_complete y1 y2 y3 y4 mcs dcs rest h1 h2 h3 h4 hm hd
    rw [← heq] at hcn
    simp [normalize_datetime, hcn]
  · intro y1 y2 y3 y4 mcs dcs rest heq h1 h2 h3 h4 hm hd hmax
    have hstd := matchSTDPrefix_complete y1 y2 y3 y4 mcs dcs rest h1 h2 h3 h4 hm hd hmax
    have hcn := matchCNPrefix_on_std y1 y2 y3 y4 mcs dcs rest h1 h2 h3 h4
    rw [← heq] at hstd hcn
    simp [normalize_datetime, hcn, hstd]
  · intro hcn hstd
    cases hc : matchCNPrefix (pyStrip s).data with
    | some val =>
      obtain ⟨y, m, d, rest⟩ := val
      exact absurd (matchCNPrefix_sound _ y m d rest hc) hcn
    | none =>
      cases hs : matchSTDPrefix (pyStrip s).data with
      | some val =>
        obtain ⟨y, m, d, rest⟩ := val
        exact absurd (matchSTDPrefix_sound _ y m d rest hs) hstd
      | none => simp [normalize_datetime, hc, hs]

/-- Witness for the amended C2 statement: the Chinese-prefix clause applied
at a concrete input with a suffix, and the no-match clause applied at a
short string with neither prefix shape. -/
theorem C2_normalize_datetime_contract_witness :
    normalize_datetime "2024年3月5日 上午" = some "2024年3月5日 上午"
    ∧ normalize_datetime "会议" = none := by
  constructor
  · have h := (C2_normalize_datetime_contract "2024年3月5日 上午").1 '2' '0' '2' '4'
      ['3'] ['5'] [' ', '上', '午'] (by decide) rfl rfl rfl rfl
      ⟨Or.inl rfl, by decide⟩ ⟨Or.inl rfl, by decide⟩
    exact h.trans (by decide)
  · refine (C2_normalize_datetime_contract "会议").2.2 (fun hc => ?_) (fun hs => ?_)
    · have h9 := isCNShaped_length _ hc
      have h2 : (pyStrip "会议").data.length = 2 := by decide
      omega
    · have h8 := isSTDShaped_length _ hs
      have h2 : (pyStrip "会议").data.length = 2 := by decide
      omega
